import Mathlib

/-!
Verification of the `dom_sanitizer` crate: a shallow embedding of its
policy data model, attribute-matcher language, and the Permissive /
Restrictive tree-rewrite directives, together with proofs of the
specification claims.

The DOM tree (provided externally by `dom_query` in the source) is
modelled as a pure rose tree; in-place mutation of a node's child list
becomes a function from child lists to child lists.  Machine details of
the source that the model keeps: evaluation order of checkers (remove is
tested before recursion, exclude after recursion), the capture of the
next sibling before any removal (which makes the loop act independently
on each child), the absence of an `is_element` guard in the plugin
Permissive directive, and the unconditional `normalize()` call after the
directive traversal.
-/

namespace DomSanitizer

/-- A DOM attribute: (local name, value), as `html5ever::Attribute`. -/
abbrev DAttr := String × String

/-- A DOM node as navigated through `dom_query::NodeRef`: an element with
a local name, a namespace, an attribute list and children, or a text or
comment leaf.  (`may_have_children` is true exactly for `elem`.) -/
inductive DNode where
  | elem (name : String) (ns : String) (attrs : List DAttr) (children : List DNode)
  | text (s : String)
  | comment (s : String)
deriving Repr

mutual

/-- Number of elements with the given local name in the whole subtree. -/
def countElems (name : String) : DNode → Nat
  | .elem n _ _ cs => (if n = name then 1 else 0) + countElemsList name cs
  | _ => 0

/-- List version of `countElems`. -/
def countElemsList (name : String) : List DNode → Nat
  | [] => 0
  | c :: rest => countElems name c + countElemsList name rest

end

mutual

/-- Number of text nodes in the whole subtree. -/
def countTexts : DNode → Nat
  | .elem _ _ _ cs => countTextsList cs
  | .text _ => 1
  | .comment _ => 0

/-- List version of `countTexts`. -/
def countTextsList : List DNode → Nat
  | [] => 0
  | c :: rest => countTexts c + countTextsList rest

end

/-! ## Attribute matcher language (`src/attr_parser.rs`)

Strings are compared at character level; on the inputs of interest
(ASCII) this coincides with the source's byte-level comparisons, and for
UTF-8 the equality / affix / substring tests agree as well. -/

/-- Model of `AttrOperator` from `src/attr_parser.rs` (`=`, `~=`, `|=`, `^=`, `$=`, `*=`). -/
inductive AttrOperator where
  | equals
  | includes
  | dashMatch
  | prefixOp
  | suffixOp
  | substringOp
deriving Repr, DecidableEq

/-- Model of `AttrValue` from `src/attr_parser.rs`: an operator and the matcher value. -/
structure AttrValue where
  op : AttrOperator
  value : String
deriving Repr, DecidableEq

/-- Model of `SELECTOR_WHITESPACE` from `src/attr_parser.rs`. -/
def SELECTOR_WHITESPACE : List Char := [' ', '\t', '\n', '\r', '\x0C']

/-- Rust `str::split` over a set of delimiter characters: splits at every
occurrence of a delimiter and keeps empty parts, so `"a "` yields
`["a", ""]` and `""` yields `[""]`. -/
def splitWs : List Char → List (List Char)
  | [] => [[]]
  | c :: rest =>
    if c ∈ SELECTOR_WHITESPACE then [] :: splitWs rest
    else
      match splitWs rest with
      | [] => [[c]]
      | p :: ps => (c :: p) :: ps

/-- Rust `str::contains`: `sub` occurs as a contiguous substring of `l`. -/
def containsSub (l sub : List Char) : Bool :=
  if sub.isPrefixOf l then true
  else
    match l with
    | [] => false
    | _ :: rest => containsSub rest sub

/-- Model of `AttrValue::is_match` from `src/attr_parser.rs`: matches an element's
attribute value against the operator and matcher value.  An empty element
value never matches; each operator then compares as in the source
(`Includes` tests whole whitespace-separated tokens, `DashMatch` accepts
equality or a `value-` prefix followed by a dash). -/
def AttrValue.is_match (av : AttrValue) (elemValue : String) : Bool :=
  if elemValue.data.isEmpty then false
  else
    let e := elemValue.data
    let s := av.value.data
    match av.op with
    | .equals => e == s
    | .includes => (splitWs e).any (fun part => part == s)
    | .dashMatch =>
        e == s || (s.isPrefixOf e && decide (s.length < e.length) && e.get? s.length == some '-')
    | .prefixOp => s.isPrefixOf e
    | .suffixOp => s.isSuffixOf e
    | .substringOp => containsSub e s

/-- Model of `AttrMatcher` from `src/attr_parser.rs`: a key and an optional
operator/value pair. -/
structure AttrMatcher where
  key : String
  value : Option AttrValue
deriving Repr, DecidableEq

/-! ### The nom parser of `src/attr_parser.rs`

nom distinguishes recoverable errors (`Err::Error`, caught by `alt` and
`opt`) from unrecoverable failures (`Err::Failure`, produced by `cut`,
which propagate).  `PResult` mirrors this. -/

/-- Parser result: success with the remaining input, recoverable error
(nom `Error`), or unrecoverable failure (nom `Failure`, from `cut`). -/
inductive PResult (α : Type) where
  | ok (val : α) (rest : List Char)
  | recov
  | hardFail
deriving Repr

/-- Key characters: `is_ascii_alphanumeric` or `-`
(`parse_attr_key`'s `take_while1`). -/
def isKeyChar (c : Char) : Bool :=
  c.isAlphanum || c == '-'

/-- Model of `parse_attr_key`: `take_while1` over key characters; a recoverable
error when no character matches. -/
def parseAttrKey (input : List Char) : PResult (List Char) :=
  match input with
  | [] => .recov
  | c :: rest =>
    if isKeyChar c then
      let more := rest.takeWhile isKeyChar
      .ok (c :: more) (rest.dropWhile isKeyChar)
    else .recov

/-- nom `multispace0`: space, tab, newline, carriage return. -/
def dropMultispace (input : List Char) : List Char :=
  input.dropWhile (fun c => c == ' ' || c == '\t' || c == '\n' || c == '\r')

/-- Model of `parse_attr_operator`: optional whitespace, one of the operator tags
(two-character tags tried before `=`), optional whitespace. -/
def parseAttrOperator (input : List Char) : PResult AttrOperator :=
  match dropMultispace input with
  | '~' :: '=' :: rest => .ok .includes (dropMultispace rest)
  | '|' :: '=' :: rest => .ok .dashMatch (dropMultispace rest)
  | '^' :: '=' :: rest => .ok .prefixOp (dropMultispace rest)
  | '$' :: '=' :: rest => .ok .suffixOp (dropMultispace rest)
  | '*' :: '=' :: rest => .ok .substringOp (dropMultispace rest)
  | '=' :: rest => .ok .equals (dropMultispace rest)
  | _ => .recov

/-- Model of `parse_attr_value`: an operator, then either a double-quoted value
(`preceded(char('"'), cut(terminated(is_not("\""), char('"'))))`, whose
`cut` turns a missing content or missing closing quote into a hard
failure) or nom's `rest`, which consumes everything — including nothing. -/
def parseAttrValue (input : List Char) : PResult AttrValue :=
  match parseAttrOperator input with
  | .recov => .recov
  | .hardFail => .hardFail
  | .ok o rest =>
    match rest with
    | '"' :: afterQuote =>
      match afterQuote.takeWhile (fun c => c ≠ '"'), afterQuote.dropWhile (fun c => c ≠ '"') with
      | [], _ => .hardFail
      | content, '"' :: rest2 => .ok ⟨o, ⟨content⟩⟩ rest2
      | _, _ => .hardFail
    | _ => .ok ⟨o, ⟨rest⟩⟩ []

/-- The bracketed branch of `parse_attr`:
`delimited(char('['), (parse_attr_key, opt(parse_attr_value)), char(']'))`.
`opt` absorbs recoverable errors of `parse_attr_value` but hard failures
propagate. -/
def parseAttrBracket (input : List Char) : PResult AttrMatcher :=
  match input with
  | '[' :: r1 =>
    match parseAttrKey r1 with
    | .recov => .recov
    | .hardFail => .hardFail
    | .ok key r2 =>
      match parseAttrValue r2 with
      | .hardFail => .hardFail
      | .ok v r3 =>
        match r3 with
        | ']' :: r4 => .ok ⟨⟨key⟩, some v⟩ r4
        | _ => .recov
      | .recov =>
        match r2 with
        | ']' :: r4 => .ok ⟨⟨key⟩, none⟩ r4
        | _ => .recov
  | _ => .recov

/-- The plain branch of `parse_attr`:
`(parse_attr_key, opt(parse_attr_value))`, applied to the whole input. -/
def parseAttrPlain (input : List Char) : PResult AttrMatcher :=
  match parseAttrKey input with
  | .recov => .recov
  | .hardFail => .hardFail
  | .ok key r2 =>
    match parseAttrValue r2 with
    | .hardFail => .hardFail
    | .ok v r3 => .ok ⟨⟨key⟩, some v⟩ r3
    | .recov => .ok ⟨⟨key⟩, none⟩ r2

/-- Model of `parse_attr`: `alt` of the bracketed and the plain branch; `alt`
retries only on recoverable errors. -/
def parseAttr (input : List Char) : PResult AttrMatcher :=
  match parseAttrBracket input with
  | .ok v r => .ok v r
  | .hardFail => .hardFail
  | .recov => parseAttrPlain input

/-- Model of `AttrMatcher::parse`: runs `parse_attr` and keeps the matcher,
ignoring unconsumed input; errors become `none`. -/
def AttrMatcher.parse (input : String) : Option AttrMatcher :=
  match parseAttr input.data with
  | .ok m _ => some m
  | _ => none

/-! ## Plugin policy (`src/plugin_policy/core.rs`)

`NodeChecker::is_match` and `AttrChecker::is_match_attr` are arbitrary
pure predicates; they are modelled as Lean functions of the node (the
node value carries its whole subtree, which is what the checkers in the
repository's tests inspect: names, attributes, text content). -/

/-- Model of `PluginPolicy`: ordered checker lists for the exclude, remove and
attribute categories. -/
structure PluginPolicy where
  exclude_checkers : List (DNode → Bool)
  remove_checkers : List (DNode → Bool)
  attr_exclude_checkers : List (DNode → DAttr → Bool)

namespace PluginPolicy

/-- Model of `PluginPolicy::should_exclude`: short-circuiting OR over the exclude
checkers. -/
def should_exclude (p : PluginPolicy) (n : DNode) : Bool :=
  p.exclude_checkers.any (fun c => c n)

/-- Model of `PluginPolicy::should_remove`: short-circuiting OR over the remove
checkers. -/
def should_remove (p : PluginPolicy) (n : DNode) : Bool :=
  p.remove_checkers.any (fun c => c n)

/-- Model of `PluginPolicy::should_exclude_attr`: short-circuiting OR over the
attribute checkers. -/
def should_exclude_attr (p : PluginPolicy) (n : DNode) (a : DAttr) : Bool :=
  p.attr_exclude_checkers.any (fun c => c n a)

end PluginPolicy

/-- Model of `Restrictive::should_skip` from `src/lib.rs`: true exactly when the
node has a qualified name whose local part is `html`, `head` or `body`
(the namespace is not consulted; text and comment nodes have no
qualified name). -/
def shouldSkip : DNode → Bool
  | .elem name _ _ _ => name == "html" || name == "head" || name == "body"
  | _ => false

/-- Model of `Permissive::sanitize_node_attrs` (plugin): with no attribute
checkers the node is untouched; otherwise the names of the attributes
matching some checker are collected and `remove_attrs` drops every
attribute with such a name. -/
def pluginPermAttrs (p : PluginPolicy) : DNode → DNode
  | .elem name ns attrs cs =>
    if p.attr_exclude_checkers.isEmpty then .elem name ns attrs cs
    else
      let node := DNode.elem name ns attrs cs
      let matched := (attrs.filter (fun a => p.should_exclude_attr node a)).map Prod.fst
      .elem name ns (attrs.filter (fun a => !matched.contains a.fst)) cs
  | n => n

/-- Model of `Restrictive::sanitize_node_attrs` (plugin): with no attribute
checkers `remove_all_attrs` strips everything; otherwise the names of
the matching attributes are collected and `retain_attrs` keeps exactly
the attributes with such a name. -/
def pluginRestrAttrs (p : PluginPolicy) : DNode → DNode
  | .elem name ns attrs cs =>
    if p.attr_exclude_checkers.isEmpty then .elem name ns [] cs
    else
      let node := DNode.elem name ns attrs cs
      let matched := (attrs.filter (fun a => p.should_exclude_attr node a)).map Prod.fst
      .elem name ns (attrs.filter (fun a => matched.contains a.fst)) cs
  | n => n

/-- The fast-path emptiness test at the top of the plugin
`Permissive::sanitize_node`. -/
def PluginPolicy.isEmptyAll (p : PluginPolicy) : Bool :=
  p.exclude_checkers.isEmpty && p.remove_checkers.isEmpty && p.attr_exclude_checkers.isEmpty

mutual

/-- The `while let` loop of plugin `Permissive::sanitize_node`.  The
source re-enters `sanitize_node` (and so re-tests the fast-path
emptiness condition) for each child; since the loop only runs when that
condition is false and the policy never changes, the re-test is false at
every recursive entry and the recursion goes directly into the loop
here. -/
def pluginPermLoop (p : PluginPolicy) : List DNode → List DNode
  | [] => []
  | c :: rest => pluginPermChild p c ++ pluginPermLoop p rest

/-- One iteration of the plugin Permissive loop: `should_remove` on the
original child detaches it with its whole subtree; otherwise the child's
children are sanitized first, `should_exclude` (evaluated on the
already-sanitized node) splices the children into the child's place,
and kept nodes get their attributes sanitized.  There is no
`is_element` guard in this directive. -/
def pluginPermChild (p : PluginPolicy) (c : DNode) : List DNode :=
  match c with
  | .elem name ns attrs cs =>
    if p.should_remove (.elem name ns attrs cs) then []
    else
      let c2 := DNode.elem name ns attrs (pluginPermLoop p cs)
      if p.should_exclude c2 then pluginPermLoop p cs
      else [pluginPermAttrs p c2]
  | c =>
    if p.should_remove c then []
    else if p.should_exclude c then []
    else [c]

end

/-- Plugin `Permissive::sanitize_node`: with all three checker lists
empty it returns at once; otherwise it runs the loop over the scope
node's child list. -/
def pluginPermList (p : PluginPolicy) (cs : List DNode) : List DNode :=
  if p.isEmptyAll then cs else pluginPermLoop p cs

mutual

/-- Plugin `Restrictive::sanitize_node`: rewrites the child list of the
scope node; no fast path.  Remove is checked first, then recursion, then
non-elements are kept as-is, then `should_skip`-or-exclude keeps the
element (with attributes sanitized); every other element is unwrapped:
its already-sanitized children are spliced into its place. -/
def pluginRestrList (p : PluginPolicy) : List DNode → List DNode
  | [] => []
  | c :: rest => pluginRestrChild p c ++ pluginRestrList p rest

/-- One iteration of the plugin Restrictive loop. -/
def pluginRestrChild (p : PluginPolicy) (c : DNode) : List DNode :=
  match c with
  | .elem name ns attrs cs =>
    if p.should_remove (.elem name ns attrs cs) then []
    else
      let c2 := DNode.elem name ns attrs (pluginRestrList p cs)
      if shouldSkip c2 || p.should_exclude c2 then [pluginRestrAttrs p c2]
      else pluginRestrList p cs
  | c => if p.should_remove c then [] else [c]

end

/-! ## Text-node normalization

`NodeRef::normalize` is provided by the external `dom_query` crate; the
spec describes it as the pass that merges adjacent text nodes in the
subtree.  Modelled from the spec: adjacent sibling text nodes are
concatenated, recursively in every child list. -/

/-- Merge adjacent text nodes of one sibling list: every maximal run of
text siblings becomes one text node with the concatenated contents. -/
def mergeTexts : List DNode → List DNode
  | [] => []
  | .text s :: rest =>
    match mergeTexts rest with
    | .text t :: m2 => .text (s ++ t) :: m2
    | merged => .text s :: merged
  | .elem n ns a cs :: rest => .elem n ns a cs :: mergeTexts rest
  | .comment s :: rest => .comment s :: mergeTexts rest

mutual

/-- Modelled from the spec: `NodeRef::normalize` (of the external
`dom_query` crate) merges adjacent text nodes in the whole subtree. -/
def normalizeNode : DNode → DNode
  | .elem name ns attrs cs => .elem name ns attrs (mergeTexts (normalizeKids cs))
  | n => n

/-- Normalize each tree of a child list. -/
def normalizeKids : List DNode → List DNode
  | [] => []
  | c :: rest => normalizeNode c :: normalizeKids rest

end

/-- Model of `PluginPolicy::<Permissive>::sanitize_node`: the directive traversal
over the scope node's children followed by `node.normalize()`. -/
def pluginPermSanitize (p : PluginPolicy) : DNode → DNode
  | .elem name ns attrs cs => normalizeNode (.elem name ns attrs (pluginPermList p cs))
  | n => normalizeNode n

/-- Model of `PluginPolicy::<Restrictive>::sanitize_node`: the directive traversal
over the scope node's children followed by `node.normalize()`. -/
def pluginRestrSanitize (p : PluginPolicy) : DNode → DNode
  | .elem name ns attrs cs => normalizeNode (.elem name ns attrs (pluginRestrList p cs))
  | n => normalizeNode n

/-! ## Basic name-based policy (`src/policy.rs`)

The `Policy` of `src/policy.rs` has an element-rule list of local names
and attribute rules carrying `AttrMatcher`s with an optional element
scope; there is no remove category in this revision. -/

/-- Model of `ALWAYS_SKIP` from `src/policy.rs`. -/
def ALWAYS_SKIP : List String := ["html", "head", "body"]

/-- Model of `AttributeRule` from `src/policy.rs`: an optional element scope
(`none` applies to every element) and the attribute matchers. -/
structure AttributeRule where
  element : Option String
  attributes : List AttrMatcher

/-- Model of `Policy` from `src/policy.rs` (directive chosen at the call sites
below): attribute rules and element rules. -/
structure BPolicy where
  attr_rules : List AttributeRule
  element_rules : List String

/-- The matchers of the rules applicable to an element with the given
local name: rules with no scope, and rules scoped to that name, in rule
order (first half of `Policy::exclusive_attrs`). -/
def applicableMatchers (p : BPolicy) (name : String) : List AttrMatcher :=
  p.attr_rules.flatMap (fun r =>
    match r.element with
    | none => r.attributes
    | some en => if name = en then r.attributes else [])

/-- The test `Policy::exclusive_attrs` performs for one matcher against
an element's attribute list: with a value, some attribute with the
matcher's key whose value satisfies `AttrValue::is_match`; without one,
`has_attr` on the key. -/
def matcherHits (attrs : List DAttr) (m : AttrMatcher) : Bool :=
  match m.value with
  | some v => attrs.any (fun a => a.fst == m.key && v.is_match a.snd)
  | none => attrs.any (fun a => a.fst == m.key)

/-- Model of `Policy::exclusive_attrs`: the keys of the applicable matchers that
hit the element's attribute list. -/
def exclusiveAttrs (p : BPolicy) (name : String) (attrs : List DAttr) : List String :=
  ((applicableMatchers p name).filter (fun m => matcherHits attrs m)).map (fun m => m.key)

/-- The attribute-list effect of basic `Permissive::sanitize_node_attr`:
with no attribute rules the list is untouched; otherwise `remove_attrs`
drops every attribute whose name is an exclusive key. -/
def bPermAttrFilter (p : BPolicy) (name : String) (attrs : List DAttr) : List DAttr :=
  if p.attr_rules.isEmpty then attrs
  else attrs.filter (fun a => !(exclusiveAttrs p name attrs).contains a.fst)

/-- The attribute-list effect of basic `Restrictive::sanitize_node_attr`:
with no attribute rules `remove_all_attrs` strips everything; otherwise
`retain_attrs` keeps exactly the attributes whose name is an exclusive
key. -/
def bRestrAttrFilter (p : BPolicy) (name : String) (attrs : List DAttr) : List DAttr :=
  if p.attr_rules.isEmpty then []
  else attrs.filter (fun a => (exclusiveAttrs p name attrs).contains a.fst)

/-- Basic `Permissive::sanitize_node_attr` on a node. -/
def bPermAttrs (p : BPolicy) : DNode → DNode
  | .elem name ns attrs cs => .elem name ns (bPermAttrFilter p name attrs) cs
  | n => n

/-- Basic `Restrictive::sanitize_node_attr` on a node. -/
def bRestrAttrs (p : BPolicy) : DNode → DNode
  | .elem name ns attrs cs => .elem name ns (bRestrAttrFilter p name attrs) cs
  | n => n

mutual

/-- The `while let` loop of basic `Permissive::sanitize_node`.  As with
the plugin directive, the source re-enters `sanitize_node` per child and
re-tests the fast-path emptiness condition; the loop only runs when that
condition is false, so the recursion goes directly into the loop. -/
def bPermLoop (p : BPolicy) : List DNode → List DNode
  | [] => []
  | c :: rest => bPermChild p c ++ bPermLoop p rest

/-- One iteration of the basic Permissive loop: recursion into the
child's children first, non-elements are kept, an element whose local
name is in `element_rules` is unwrapped (children spliced into its
place), and kept elements get their attributes sanitized. -/
def bPermChild (p : BPolicy) (c : DNode) : List DNode :=
  match c with
  | .elem name ns attrs cs =>
    let inner := bPermLoop p cs
    if p.element_rules.contains name then inner
    else [bPermAttrs p (.elem name ns attrs inner)]
  | c => [c]

end

/-- Basic `Permissive::sanitize_node`: with no element rules and no
attribute rules it returns at once; otherwise it runs the loop over the
scope node's child list. -/
def bPermList (p : BPolicy) (cs : List DNode) : List DNode :=
  if p.element_rules.isEmpty && p.attr_rules.isEmpty then cs else bPermLoop p cs

mutual

/-- Basic `Restrictive::sanitize_node`: no fast path; recursion first,
non-elements kept, elements whose local name is in `ALWAYS_SKIP` or in
`element_rules` kept with attributes sanitized, every other element
unwrapped. -/
def bRestrList (p : BPolicy) : List DNode → List DNode
  | [] => []
  | c :: rest => bRestrChild p c ++ bRestrList p rest

/-- One iteration of the basic Restrictive loop. -/
def bRestrChild (p : BPolicy) (c : DNode) : List DNode :=
  match c with
  | .elem name ns attrs cs =>
    let inner := bRestrList p cs
    if ALWAYS_SKIP.contains name || p.element_rules.contains name then
      [bRestrAttrs p (.elem name ns attrs inner)]
    else inner
  | c => [c]

end

/-- Model of `Policy::<Permissive>::sanitize_node` from `src/policy.rs`: directive
traversal over the scope node's children, then `node.normalize()`. -/
def bPermSanitize (p : BPolicy) : DNode → DNode
  | .elem name ns attrs cs => normalizeNode (.elem name ns attrs (bPermList p cs))
  | n => normalizeNode n

/-- Model of `Policy::<Restrictive>::sanitize_node` from `src/policy.rs`:
directive traversal over the scope node's children, then
`node.normalize()`. -/
def bRestrSanitize (p : BPolicy) : DNode → DNode
  | .elem name ns attrs cs => normalizeNode (.elem name ns attrs (bRestrList p cs))
  | n => normalizeNode n

/-! ## The iterative traversal helpers

`next_child_or_sibling` exists in three revisions in the repository:
the two-argument versions in `src/policy/core.rs` (line 235) and
`src/directives.rs` (line 105), which are textually identical, and the
three-argument version in `src/dom_helpers.rs`, which additionally stops
the upward walk at the scope node.  Nodes of a fixed global tree are
addressed by their path (list of child indices), which plays the role of
`NodeRef`/node id. -/

/-- Model of `is_element` of a node value. -/
def isElemN : DNode → Bool
  | .elem _ _ _ _ => true
  | _ => false

/-- A node of a fixed tree is addressed by its reversed path of child
indices: the head is the node's index in its parent's child list and the
tail is the parent's address, so the root is `[]` and taking the parent
is `List.tail`.  A node `q` lies in the subtree of `scope` exactly when
`scope` is a suffix of `q`. -/
abbrev RPath := List Nat

/-- The node of `t` addressed by a reversed path. -/
def nodeAt? (t : DNode) : RPath → Option DNode
  | [] => some t
  | i :: rp =>
    match nodeAt? t rp with
    | some (.elem _ _ _ cs) => cs.get? i
    | _ => none

/-- The child list of the addressed node (none for leaves and invalid
addresses). -/
def childrenAt? (t : DNode) (rp : RPath) : Option (List DNode) :=
  match nodeAt? t rp with
  | some (.elem _ _ _ cs) => some cs
  | _ => none

/-- Model of `NodeRef::first_element_child` as an address: the first child of the
addressed node that is an element. -/
def firstElementChild? (t : DNode) (rp : RPath) : Option RPath :=
  match childrenAt? t rp with
  | some cs =>
    match cs.findIdx? isElemN with
    | some i => some (i :: rp)
    | none => none
  | none => none

/-- Model of `NodeRef::next_element_sibling` as an address: the first element
among the following siblings of the addressed node. -/
def nextElementSibling? (t : DNode) : RPath → Option RPath
  | [] => none
  | i :: rpp =>
    match childrenAt? t rpp with
    | some cs =>
      match (cs.drop (i + 1)).findIdx? isElemN with
      | some k => some ((i + 1 + k) :: rpp)
      | none => none
    | none => none

/-- The ancestor loop of the two-argument `next_child_or_sibling`
(`src/policy/core.rs:235`, `src/directives.rs:105`): walk up the parent
chain and return the first ancestor's next element sibling, with no
bound. -/
def ancLoopU (t : DNode) : RPath → Option RPath
  | [] => none
  | i :: rpp =>
    match nextElementSibling? t (i :: rpp) with
    | some r => some r
    | none => ancLoopU t rpp

/-- The two-argument `next_child_or_sibling` of `src/policy/core.rs` and
`src/directives.rs`: first element child (unless `ignore_child`), else
next element sibling, else the unbounded ancestor loop over the strict
ancestors. -/
def nextChildOrSiblingU (t : DNode) (rp : RPath) (ignoreChild : Bool) : Option RPath :=
  match if ignoreChild then none else firstElementChild? t rp with
  | some r => some r
  | none =>
    match nextElementSibling? t rp with
    | some r => some r
    | none => ancLoopU t rp.tail

/-- The ancestor loop of the three-argument `next_child_or_sibling`
(`src/dom_helpers.rs`): identical, except that reaching the scope node
ends the walk with `None` before its sibling is consulted. -/
def ancLoopS (t : DNode) (scope : RPath) : RPath → Option RPath
  | [] => none
  | i :: rpp =>
    if i :: rpp = scope then none
    else
      match nextElementSibling? t (i :: rpp) with
      | some r => some r
      | none => ancLoopS t scope rpp

/-- The three-argument, scope-bounded `next_child_or_sibling` of
`src/dom_helpers.rs`.  The Rust loop starts at `node.parent()` and tests
`parent_node.id == scope.id` before using a parent's sibling; the root
case (`parent` exhausted) returns `None` exactly as the final `None`
here.  (When the walk starts at the scope's own address the scope test
of the loop is what the `if parent_node.id == scope.id` line performs on
the first iteration, so the guard in `ancLoopS` fires for `scope`
itself.) -/
def nextChildOrSiblingS (t : DNode) (rp : RPath) (ignoreChild : Bool)
    (scope : RPath) : Option RPath :=
  match if ignoreChild then none else firstElementChild? t rp with
  | some r => some r
  | none =>
    match nextElementSibling? t rp with
    | some r => some r
    | none => ancLoopS t scope rp.tail

/-- The tree on which the unbounded helper escapes the scope: the scope
(child 0 of the root) holds a single element child, and the root has a
second element child next to the scope. -/
def escapeTree : DNode :=
  .elem "#root" "" [] [.elem "scope" "" [] [.elem "c" "" [] []], .elem "after" "" [] []]

/-! ## Predicates used by the idempotence development -/

/-- Whether a node is a text node. -/
def isTextN : DNode → Bool
  | .text _ => true
  | _ => false

/-- No two adjacent text nodes in a sibling list. -/
def noAdjTexts : List DNode → Bool
  | [] => true
  | [_] => true
  | a :: b :: rest => !(isTextN a && isTextN b) && noAdjTexts (b :: rest)

/-- Whether the first node of a sibling list is a text node. -/
def headIsText : List DNode → Bool
  | .text _ :: _ => true
  | _ => false

mutual

/-- A tree is Permissive-clean for a basic policy: no element in it has
a local name in `element_rules`, and every element's attribute list is a
fixed point of the Permissive attribute filter.  Trees produced by the
basic Permissive traversal are clean, and the traversal is the identity
on clean trees. -/
def bPermCleanN (p : BPolicy) : DNode → Bool
  | .elem name _ attrs cs =>
    !(p.element_rules.contains name) &&
    decide (bPermAttrFilter p name attrs = attrs) &&
    bPermCleanL p cs
  | _ => true

/-- List version of `bPermCleanN`. -/
def bPermCleanL (p : BPolicy) : List DNode → Bool
  | [] => true
  | c :: rest => bPermCleanN p c && bPermCleanL p rest

end

mutual

/-- A tree is Restrictive-clean for a basic policy: every element in it
has a local name in `ALWAYS_SKIP` or in `element_rules`, and every
element's attribute list is a fixed point of the Restrictive attribute
filter. -/
def bRestrCleanN (p : BPolicy) : DNode → Bool
  | .elem name _ attrs cs =>
    (ALWAYS_SKIP.contains name || p.element_rules.contains name) &&
    decide (bRestrAttrFilter p name attrs = attrs) &&
    bRestrCleanL p cs
  | _ => true

/-- List version of `bRestrCleanN`. -/
def bRestrCleanL (p : BPolicy) : List DNode → Bool
  | [] => true
  | c :: rest => bRestrCleanN p c && bRestrCleanL p rest

end

/-- A witness test for one matcher against one attribute: the attribute
has the matcher's key, and satisfies the matcher's value condition when
there is one (`Policy::exclusive_attrs` tests the existence of such an
attribute). -/
def matcherWitness (m : AttrMatcher) (b : DAttr) : Bool :=
  (b.fst == m.key) && (match m.value with | none => true | some v => v.is_match b.snd)

/-- The plugin policy of the idempotence counterexample: the exclude
checker matches elements that have no `x` attribute, and the attribute
checker removes `x` attributes; the first pass strips `x` and keeps the
element, the second pass then unwraps it. -/
def attrProbePolicy : PluginPolicy :=
  ⟨[fun n => match n with
     | .elem _ _ attrs _ => !(attrs.any (fun a => a.fst == "x"))
     | _ => false],
   [],
   [fun _ a => a.fst == "x"]⟩

/-- The tree of the idempotence counterexample. -/
def attrProbeTree : DNode := .elem "root" "" [] [.elem "div" "" [("x", "1")] []]

/-- Witness for `remove_precedes_exclude`: a policy whose remove checker
and exclude checker both match `div` elements still deletes the `div`
outright. -/
def removeAndExcludeDiv : PluginPolicy :=
  ⟨[fun n => match n with | .elem nm _ _ _ => nm == "div" | _ => false],
   [fun n => match n with | .elem nm _ _ _ => nm == "div" | _ => false],
   []⟩

/-- A plugin exclude checker that matches exactly the text nodes. -/
def exclTextPolicy : PluginPolicy :=
  ⟨[fun n => match n with | .text _ => true | _ => false], [], []⟩

/-- A Restrictive plugin policy whose only rule is a Remove checker
matching elements with local name `body`. -/
def removeBodyPolicy : PluginPolicy :=
  ⟨[], [fun n => match n with | .elem nm _ _ _ => nm == "body" | _ => false], []⟩

/-- A document-shaped tree with `html`, `head` and `body`. -/
def docTree : DNode :=
  .elem "#document" "" []
    [.elem "html" "" [] [.elem "head" "" [] [], .elem "body" "" [] [.text "x"]]]

/-- The tree for the witness of `scoped_traversal_stays_in_scope`: the
scope has two element children, so the scoped helper steps from the
first to the second. -/
def scopedTree : DNode :=
  .elem "#root" "" []
    [.elem "scope" "" [] [.elem "c1" "" [] [], .elem "c2" "" [] []],
     .elem "after" "" [] []]

/-- The attribute list of a node (empty for non-elements, like
`NodeRef::attrs`). -/
def attrsOf : DNode → List DAttr
  | .elem _ _ attrs _ => attrs
  | _ => []

/-! ## Unit checks

Concrete evaluations of the model: the operator table of the spec and
the unit tests of `src/attr_parser.rs`. -/

example : splitWs " ".data = [[], []] := by decide
example : splitWs "cls1 cls2".data = ["cls1".data, "cls2".data] := by decide
example : AttrValue.is_match ⟨.includes, "cls2"⟩ "cls1 cls2" = true := by decide
example : AttrValue.is_match ⟨.includes, "cls2"⟩ "cls12" = false := by decide
example : AttrValue.is_match ⟨.dashMatch, "en"⟩ "en-US" = true := by decide
example : AttrValue.is_match ⟨.dashMatch, "en"⟩ "end" = false := by decide
example : AttrValue.is_match ⟨.prefixOp, "https://"⟩ "https://x" = true := by decide
example : AttrValue.is_match ⟨.substringOp, "lo wo"⟩ "hello world" = true := by decide
example : AttrValue.is_match ⟨.equals, ""⟩ "" = false := by decide
example : AttrMatcher.parse "[key]" = some ⟨"key", none⟩ := by decide
example : AttrMatcher.parse "[key=\"value\"]" = some ⟨"key", some ⟨.equals, "value"⟩⟩ := by
  decide
example : AttrMatcher.parse "[key = \"value\"]" = some ⟨"key", some ⟨.equals, "value"⟩⟩ := by
  decide
example : AttrMatcher.parse "key ~= some value" = some ⟨"key", some ⟨.includes, "some value"⟩⟩ := by
  decide
example : AttrMatcher.parse "key = value" = some ⟨"key", some ⟨.equals, "value"⟩⟩ := by decide
example : AttrMatcher.parse "[key" = none := by decide
example : AttrMatcher.parse "[key=\"value" = none := by decide
example : AttrMatcher.parse "[key~]" = none := by decide
example : nextChildOrSiblingU escapeTree [0, 0] false = some [1] := by decide
example : nextChildOrSiblingS escapeTree [0, 0] false [0] = none := by decide

/-! ## General lemmas about the directive loops -/

theorem pluginPermLoop_append (p : PluginPolicy) (xs ys : List DNode) :
    pluginPermLoop p (xs ++ ys) = pluginPermLoop p xs ++ pluginPermLoop p ys := by
  induction xs with
  | nil => rfl
  | cons c rest ih => simp [pluginPermLoop, ih]

theorem pluginRestrList_append (p : PluginPolicy) (xs ys : List DNode) :
    pluginRestrList p (xs ++ ys) = pluginRestrList p xs ++ pluginRestrList p ys := by
  induction xs with
  | nil => rfl
  | cons c rest ih => simp [pluginRestrList, ih]

theorem bPermLoop_append (p : BPolicy) (xs ys : List DNode) :
    bPermLoop p (xs ++ ys) = bPermLoop p xs ++ bPermLoop p ys := by
  induction xs with
  | nil => rfl
  | cons c rest ih => simp [bPermLoop, ih]

theorem bRestrList_append (p : BPolicy) (xs ys : List DNode) :
    bRestrList p (xs ++ ys) = bRestrList p xs ++ bRestrList p ys := by
  induction xs with
  | nil => rfl
  | cons c rest ih => simp [bRestrList, ih]

theorem isEmptyAll_false_of_should_remove (p : PluginPolicy) (c : DNode)
    (h : p.should_remove c = true) : p.isEmptyAll = false := by
  unfold PluginPolicy.isEmptyAll
  cases hr : p.remove_checkers with
  | nil => rw [PluginPolicy.should_remove, hr] at h; simp at h
  | cons a l => simp

/-! ## Claims about the attribute matcher language (C8, C9) -/

/-- C8, counterexample.  The claim says the `~=` and `|=` operators never
match when the matcher value is empty; but `is_match` splits the element
value at every whitespace character keeping empty parts, so an element
value `" "` has an empty token that equals the empty matcher value, and
under `|=` an element value starting with `-` passes the dash test
against the empty matcher value. -/
theorem includes_matches_empty_matcher_value :
    AttrValue.is_match ⟨.includes, ""⟩ " " = true ∧
    AttrValue.is_match ⟨.dashMatch, ""⟩ "-x" = true := by
  constructor
  · decide
  · decide

/-- C8, amended.  An empty element value never matches under any
operator, and an empty matcher value never matches under `=`; (under
`~=` and `|=` an empty matcher value can match, see the
counterexample). -/
theorem empty_element_value_never_matches :
    ∀ (ao : AttrOperator) (s e : String),
      AttrValue.is_match ⟨ao, s⟩ "" = false ∧
      AttrValue.is_match ⟨AttrOperator.equals, ""⟩ e = false := by
  intro ao s e
  constructor
  · rfl
  · cases h : e.data with
    | nil => simp [AttrValue.is_match, h]
    | cons c cs => simp [AttrValue.is_match, h]

/-- C9, counterexample.  The claim says an operator not followed by a
value (e.g. `"key~="`) is a parse error; but the value parser falls back
to nom's `rest`, which succeeds on empty input, so the input parses to a
matcher with an empty value. -/
theorem operator_without_value_parses :
    AttrMatcher.parse "key~=" = some ⟨"key", some ⟨AttrOperator.includes, ""⟩⟩ := by
  decide

/-- C9, amended.  An unterminated bracket and an unterminated quoted
value are construction-time parse errors, but an operator followed by no
value parses successfully (to a matcher with an empty value), so such a
matcher can reach traversal. -/
theorem attr_parse_error_cases :
    AttrMatcher.parse "[key" = none ∧
    AttrMatcher.parse "[key=\"value" = none ∧
    AttrMatcher.parse "key~=" ≠ none := by
  refine ⟨by decide, by decide, by decide⟩

/-! ## C2: remove precedes exclude -/

/-- C2.  Under both plugin directives, a child matching a Remove checker
— whether or not it also matches an Exclude checker — is dropped with
its entire subtree: its children are not promoted, and the rest of the
sibling list is processed exactly as if the child were absent. -/
theorem remove_precedes_exclude :
    ∀ (p : PluginPolicy) (c : DNode) (pre post : List DNode),
      p.should_remove c = true →
      pluginPermChild p c = [] ∧
      pluginRestrChild p c = [] ∧
      pluginPermList p (pre ++ c :: post) = pluginPermList p pre ++ pluginPermList p post ∧
      pluginRestrList p (pre ++ c :: post) = pluginRestrList p pre ++ pluginRestrList p post := by
  intro p c pre post h
  have hperm : pluginPermChild p c = [] := by
    cases c <;> simp [pluginPermChild, h]
  have hrestr : pluginRestrChild p c = [] := by
    cases c <;> simp [pluginRestrChild, h]
  have hempty := isEmptyAll_false_of_should_remove p c h
  refine ⟨hperm, hrestr, ?_, ?_⟩
  · simp [pluginPermList, hempty, pluginPermLoop_append, pluginPermLoop, hperm]
  · simp [pluginRestrList_append, pluginRestrList, hrestr]

theorem remove_precedes_exclude_witness :
    removeAndExcludeDiv.should_remove (.elem "div" "" [] [.text "inner"]) = true ∧
    pluginPermChild removeAndExcludeDiv (.elem "div" "" [] [.text "inner"]) = [] ∧
    pluginRestrChild removeAndExcludeDiv (.elem "div" "" [] [.text "inner"]) = [] ∧
    pluginPermList removeAndExcludeDiv
        ([.text "a"] ++ .elem "div" "" [] [.text "inner"] :: [.text "b"]) =
      pluginPermList removeAndExcludeDiv [.text "a"] ++
        pluginPermList removeAndExcludeDiv [.text "b"] ∧
    pluginRestrList removeAndExcludeDiv
        ([.text "a"] ++ .elem "div" "" [] [.text "inner"] :: [.text "b"]) =
      pluginRestrList removeAndExcludeDiv [.text "a"] ++
        pluginRestrList removeAndExcludeDiv [.text "b"] :=
  ⟨by decide,
   (remove_precedes_exclude removeAndExcludeDiv (.elem "div" "" [] [.text "inner"])
      [.text "a"] [.text "b"] (by decide)).1,
   (remove_precedes_exclude removeAndExcludeDiv (.elem "div" "" [] [.text "inner"])
      [.text "a"] [.text "b"] (by decide)).2.1,
   (remove_precedes_exclude removeAndExcludeDiv (.elem "div" "" [] [.text "inner"])
      [.text "a"] [.text "b"] (by decide)).2.2.1,
   (remove_precedes_exclude removeAndExcludeDiv (.elem "div" "" [] [.text "inner"])
      [.text "a"] [.text "b"] (by decide)).2.2.2⟩

/-! ## C4: empty Permissive policy -/

/-- C4, counterexample.  `Policy::sanitize_node` and
`PluginPolicy::sanitize_node` call `node.normalize()` unconditionally,
so even with all rule categories empty a tree with two adjacent text
children is changed (they are merged). -/
theorem empty_permissive_policy_not_noop :
    pluginPermSanitize ⟨[], [], []⟩ (.elem "div" "" [] [.text "a", .text "b"]) ≠
      .elem "div" "" [] [.text "a", .text "b"] ∧
    bPermSanitize ⟨[], []⟩ (.elem "div" "" [] [.text "a", .text "b"]) ≠
      .elem "div" "" [] [.text "a", .text "b"] :=
  ⟨fun h => absurd (congrArg countTexts h) (by decide),
   fun h => absurd (congrArg countTexts h) (by decide)⟩

/-- C4, amended.  For a Permissive policy with all rule categories empty
the directive traversal is skipped, and the whole sanitize call equals
the normalization pass alone: the only possible change is the merging of
adjacent sibling text nodes, so a tree without adjacent text siblings is
left identical. -/
theorem empty_permissive_sanitize_is_normalize :
    ∀ (p : PluginPolicy) (q : BPolicy) (t : DNode),
      p.isEmptyAll = true →
      (q.element_rules.isEmpty && q.attr_rules.isEmpty) = true →
      pluginPermSanitize p t = normalizeNode t ∧ bPermSanitize q t = normalizeNode t := by
  intro p q t hp hq
  constructor
  · cases t <;> simp [pluginPermSanitize, pluginPermList, hp]
  · cases t <;> simp [bPermSanitize, bPermList, hq]

theorem empty_permissive_sanitize_is_normalize_witness :
    (PluginPolicy.isEmptyAll ⟨[], [], []⟩) = true ∧
    pluginPermSanitize ⟨[], [], []⟩ (.elem "div" "" [] [.text "a", .text "b"]) =
      normalizeNode (.elem "div" "" [] [.text "a", .text "b"]) ∧
    bPermSanitize ⟨[], []⟩ (.elem "div" "" [] [.text "a", .text "b"]) =
      normalizeNode (.elem "div" "" [] [.text "a", .text "b"]) :=
  ⟨by decide,
   (empty_permissive_sanitize_is_normalize ⟨[], [], []⟩ ⟨[], []⟩
      (.elem "div" "" [] [.text "a", .text "b"]) (by decide) (by decide)).1,
   (empty_permissive_sanitize_is_normalize ⟨[], [], []⟩ ⟨[], []⟩
      (.elem "div" "" [] [.text "a", .text "b"]) (by decide) (by decide)).2⟩

/-! ## C6: non-element nodes and exclude checkers -/

/-- C6, counterexample.  The plugin Permissive loop has no `is_element`
guard, so an exclude checker that matches a text node removes that text
node itself: here both text nodes disappear while their ancestors `div`
and `p` are neither removed nor unwrapped. -/
theorem plugin_permissive_excludes_text_node :
    countTexts
        (pluginPermSanitize exclTextPolicy
          (.elem "div" "" [] [.text "hello", .elem "p" "" [] [.text "inner"]])) = 0 ∧
    countTexts (.elem "div" "" [] [.text "hello", .elem "p" "" [] [.text "inner"]]) = 2 ∧
    countElems "p"
        (pluginPermSanitize exclTextPolicy
          (.elem "div" "" [] [.text "hello", .elem "p" "" [] [.text "inner"]])) = 1 :=
  ⟨by decide, by decide, by decide⟩

/-- C6, amended.  Under the Restrictive plugin directive a text or
comment node that matches no Remove checker is always kept unchanged
(the `is_element` guard), and the name-based basic policy never
excludes or unwraps a text or comment node under either directive; but
under the plugin Permissive directive an exclude checker matching a
non-element node removes it (see the counterexample). -/
theorem non_elements_never_excluded_restrictive :
    ∀ (p : PluginPolicy) (q : BPolicy) (s : String),
      (p.should_remove (.text s) = false → pluginRestrChild p (.text s) = [.text s]) ∧
      (p.should_remove (.comment s) = false → pluginRestrChild p (.comment s) = [.comment s]) ∧
      bPermChild q (.text s) = [.text s] ∧
      bPermChild q (.comment s) = [.comment s] ∧
      bRestrChild q (.text s) = [.text s] ∧
      bRestrChild q (.comment s) = [.comment s] := by
  intro p q s
  refine ⟨?_, ?_, rfl, rfl, rfl, rfl⟩
  · intro h; simp [pluginRestrChild, h]
  · intro h; simp [pluginRestrChild, h]

theorem non_elements_never_excluded_restrictive_witness :
    exclTextPolicy.should_remove (.text "x") = false ∧
    pluginRestrChild exclTextPolicy (.text "x") = [.text "x"] ∧
    bPermChild ⟨[], ["div"]⟩ (.text "x") = [.text "x"] :=
  ⟨by decide,
   (non_elements_never_excluded_restrictive exclTextPolicy ⟨[], ["div"]⟩ "x").1 (by decide),
   (non_elements_never_excluded_restrictive exclTextPolicy ⟨[], ["div"]⟩ "x").2.2.1⟩

/-! ## C10: protection is decided by local name only -/

/-- C10.  Under the Restrictive plugin directive, an element whose local
name is `html`, `head` or `body` — in any namespace, with any attributes
and any position in a sibling list, hence (since the loop is applied at
every recursion level) at any depth — is kept, not unwrapped, whenever
no Remove checker matches it, for every policy, including policies with
no exclude checkers at all. -/
theorem should_skip_by_local_name_any_depth :
    ∀ (p : PluginPolicy) (name ns : String) (attrs : List DAttr)
      (cs pre post : List DNode),
      (name = "html" ∨ name = "head" ∨ name = "body") →
      p.should_remove (.elem name ns attrs cs) = false →
      pluginRestrList p (pre ++ .elem name ns attrs cs :: post) =
        pluginRestrList p pre ++
          pluginRestrAttrs p (.elem name ns attrs (pluginRestrList p cs)) ::
            pluginRestrList p post := by
  intro p name ns attrs cs pre post hname hrem
  have hskip : shouldSkip (.elem name ns attrs (pluginRestrList p cs)) = true := by
    rcases hname with h | h | h <;> simp [shouldSkip, h]
  rw [pluginRestrList_append]
  have hchild : pluginRestrChild p (.elem name ns attrs cs) =
      [pluginRestrAttrs p (.elem name ns attrs (pluginRestrList p cs))] := by
    simp [pluginRestrChild, hrem, hskip]
  simp [pluginRestrList, hchild]

theorem should_skip_by_local_name_any_depth_witness :
    (("body" : String) = "html" ∨ ("body" : String) = "head" ∨ ("body" : String) = "body") ∧
    PluginPolicy.should_remove ⟨[], [], []⟩ (.elem "body" "svg" [("id", "1")] [.text "t"]) = false ∧
    pluginRestrList ⟨[], [], []⟩
        ([.text "a"] ++ .elem "body" "svg" [("id", "1")] [.text "t"] :: [.text "b"]) =
      pluginRestrList ⟨[], [], []⟩ [.text "a"] ++
        pluginRestrAttrs ⟨[], [], []⟩
            (.elem "body" "svg" [("id", "1")] (pluginRestrList ⟨[], [], []⟩ [.text "t"])) ::
          pluginRestrList ⟨[], [], []⟩ [.text "b"] :=
  ⟨Or.inr (Or.inr rfl), by decide,
   should_skip_by_local_name_any_depth ⟨[], [], []⟩ "body" "svg" [("id", "1")]
     [.text "t"] [.text "a"] [.text "b"] (Or.inr (Or.inr rfl)) (by decide)⟩

/-! ## C1: root protection versus remove checkers -/

/-- C1, counterexample.  The plugin Restrictive loop tests
`should_remove` before `should_skip`, so a Remove checker matching
`body` deletes the `body` element (with its subtree) even though the
claim says `html`/`head`/`body` can never be removed. -/
theorem restrictive_remove_checker_removes_body :
    countElems "body" docTree = 1 ∧
    countElems "body" (pluginRestrSanitize removeBodyPolicy docTree) = 0 ∧
    countElems "html" (pluginRestrSanitize removeBodyPolicy docTree) = 1 :=
  ⟨by decide, by decide, by decide⟩

/-- C1, amended.  Under the Restrictive directive an element with local
name `html`, `head` or `body` is never unwrapped; with the name-based
basic `Policy` (which has no Remove category) it is kept
unconditionally, and with a `PluginPolicy` it is kept whenever no
Remove-category checker matches it — but a matching Remove checker does
delete it (see the counterexample). -/
theorem protected_names_never_unwrapped :
    ∀ (p : PluginPolicy) (q : BPolicy) (name ns : String) (attrs : List DAttr)
      (cs : List DNode),
      (name = "html" ∨ name = "head" ∨ name = "body") →
      (p.should_remove (.elem name ns attrs cs) = false →
        pluginRestrChild p (.elem name ns attrs cs) =
          [pluginRestrAttrs p (.elem name ns attrs (pluginRestrList p cs))]) ∧
      bRestrChild q (.elem name ns attrs cs) =
        [bRestrAttrs q (.elem name ns attrs (bRestrList q cs))] := by
  intro p q name ns attrs cs hname
  constructor
  · intro hrem
    have hskip : shouldSkip (.elem name ns attrs (pluginRestrList p cs)) = true := by
      rcases hname with h | h | h <;> simp [shouldSkip, h]
    simp [pluginRestrChild, hrem, hskip]
  · have hmem : name ∈ ALWAYS_SKIP := by
      rcases hname with h | h | h <;> rw [h] <;> decide
    simp [bRestrChild, hmem]

theorem protected_names_never_unwrapped_witness :
    (("head" : String) = "html" ∨ ("head" : String) = "head" ∨ ("head" : String) = "body") ∧
    removeBodyPolicy.should_remove (.elem "head" "" [] []) = false ∧
    pluginRestrChild removeBodyPolicy (.elem "head" "" [] []) =
      [pluginRestrAttrs removeBodyPolicy
        (.elem "head" "" [] (pluginRestrList removeBodyPolicy []))] ∧
    bRestrChild ⟨[], []⟩ (.elem "head" "" [] []) =
      [bRestrAttrs ⟨[], []⟩ (.elem "head" "" [] (bRestrList ⟨[], []⟩ []))] :=
  ⟨Or.inr (Or.inl rfl), by decide,
   (protected_names_never_unwrapped removeBodyPolicy ⟨[], []⟩ "head" "" [] []
      (Or.inr (Or.inl rfl))).1 (by decide),
   (protected_names_never_unwrapped removeBodyPolicy ⟨[], []⟩ "head" "" [] []
      (Or.inr (Or.inl rfl))).2⟩

/-! ## C5: scope-boundedness of the traversal -/

theorem nextElementSibling_shape (t : DNode) (rp r : RPath)
    (h : nextElementSibling? t rp = some r) :
    ∃ i j rpp, rp = i :: rpp ∧ r = j :: rpp := by
  cases rp with
  | nil => simp [nextElementSibling?] at h
  | cons i rpp =>
    cases hc : childrenAt? t rpp with
    | none => simp [nextElementSibling?, hc] at h
    | some cs =>
      cases hf : (cs.drop (i + 1)).findIdx? isElemN with
      | none => simp [nextElementSibling?, hc, hf] at h
      | some k =>
        simp only [nextElementSibling?, hc, hf] at h
        exact ⟨i, i + 1 + k, rpp, rfl, (Option.some_inj.mp h).symm⟩

theorem firstElementChild_shape (t : DNode) (rp r : RPath)
    (h : firstElementChild? t rp = some r) : ∃ i, r = i :: rp := by
  cases hc : childrenAt? t rp with
  | none => simp [firstElementChild?, hc] at h
  | some cs =>
    cases hf : cs.findIdx? isElemN with
    | none => simp [firstElementChild?, hc, hf] at h
    | some i =>
      simp only [firstElementChild?, hc, hf] at h
      exact ⟨i, (Option.some_inj.mp h).symm⟩

theorem ancLoopS_stays (t : DNode) (scope : RPath) :
    ∀ (q r : RPath), scope <:+ q → ancLoopS t scope q = some r →
      scope <:+ r ∧ r ≠ scope
  | [], r, hsuf, h => by simp [ancLoopS] at h
  | i :: rpp, r, hsuf, h => by
    unfold ancLoopS at h
    by_cases he : i :: rpp = scope
    · rw [if_pos he] at h
      exact absurd h (by simp)
    · rw [if_neg he] at h
      have hsuf2 : scope <:+ rpp := by
        rcases List.suffix_cons_iff.mp hsuf with h1 | h1
        · exact absurd h1.symm (by simpa using he)
        · exact h1
      cases hs : nextElementSibling? t (i :: rpp) with
      | some r2 =>
        rw [hs] at h
        obtain ⟨i2, j, rpp2, heq, hr⟩ := nextElementSibling_shape t _ _ hs
        obtain ⟨_, hq2⟩ := List.cons.inj heq
        subst hq2
        have hrr := Option.some_inj.mp h
        subst hrr
        subst hr
        refine ⟨List.suffix_cons_iff.mpr (Or.inr hsuf2), ?_⟩
        intro hcontra
        have h1 := hsuf2.length_le
        rw [← hcontra] at h1
        simp at h1
      | none =>
        rw [hs] at h
        exact ancLoopS_stays t scope rpp r hsuf2 h

/-- C5, amended.  The scope-bounded `next_child_or_sibling` of
`src/dom_helpers.rs`, started from any node strictly inside the scope
node's subtree, only yields nodes strictly inside the scope node's
subtree — the traversal never escapes upward past the scope.  (The
two-argument revisions in `src/policy/core.rs` and `src/directives.rs`
do escape; see the counterexample.) -/
theorem scoped_traversal_stays_in_scope :
    ∀ (t : DNode) (scope rp : RPath) (b : Bool) (r : RPath),
      scope <:+ rp → rp ≠ scope →
      nextChildOrSiblingS t rp b scope = some r →
      scope <:+ r ∧ r ≠ scope := by
  intro t scope rp b r hsuf hne h
  have hlen : scope.length ≤ rp.length := hsuf.length_le
  unfold nextChildOrSiblingS at h
  cases hfc : (if b then none else firstElementChild? t rp) with
  | some r1 =>
    rw [hfc] at h
    have hfc2 : firstElementChild? t rp = some r1 := by
      cases b with
      | true => simp at hfc
      | false => simpa using hfc
    obtain ⟨i, hr1⟩ := firstElementChild_shape t rp r1 hfc2
    have hrr := Option.some_inj.mp h
    subst hrr
    subst hr1
    refine ⟨List.suffix_cons_iff.mpr (Or.inr hsuf), ?_⟩
    intro hcontra
    rw [← hcontra] at hlen
    simp at hlen
  | none =>
    rw [hfc] at h
    cases hs : nextElementSibling? t rp with
    | some r2 =>
      rw [hs] at h
      obtain ⟨i, j, rpp, heq, hr⟩ := nextElementSibling_shape t _ _ hs
      subst heq
      have hsuf2 : scope <:+ rpp := by
        rcases List.suffix_cons_iff.mp hsuf with h1 | h1
        · exact absurd h1.symm hne
        · exact h1
      have hrr := Option.some_inj.mp h
      subst hrr
      subst hr
      refine ⟨List.suffix_cons_iff.mpr (Or.inr hsuf2), ?_⟩
      intro hcontra
      have h1 := hsuf2.length_le
      rw [← hcontra] at h1
      simp at h1
    | none =>
      rw [hs] at h
      cases hq : rp with
      | nil =>
        subst hq
        have : scope = [] := List.suffix_nil.mp hsuf
        exact absurd this (by simpa using hne.symm)
      | cons i rpp =>
        subst hq
        have hsuf2 : scope <:+ rpp := by
          rcases List.suffix_cons_iff.mp hsuf with h1 | h1
          · exact absurd h1.symm hne
          · exact h1
        exact ancLoopS_stays t scope rpp r hsuf2 h

/-- C5, counterexample.  The two-argument `next_child_or_sibling`
(`src/policy/core.rs:235`, `src/directives.rs:105`) escapes the scope:
started from the node at address `[0, 0]` (the only child of the scope
at `[0]`), it walks up past the scope and yields the scope's next
sibling `[1]`, which is not in the scope's subtree. -/
theorem unbounded_traversal_escapes_scope :
    nextChildOrSiblingU escapeTree [0, 0] false = some [1] ∧
    (([0] : RPath) <:+ [0, 0]) ∧
    ¬ (([0] : RPath) <:+ [1]) :=
  ⟨by decide, by decide, by decide⟩

theorem scoped_traversal_stays_in_scope_witness :
    (([0] : RPath) <:+ [0, 0]) ∧ ([0, 0] : RPath) ≠ [0] ∧
    nextChildOrSiblingS scopedTree [0, 0] false [0] = some [1, 0] ∧
    ((([0] : RPath) <:+ [1, 0]) ∧ ([1, 0] : RPath) ≠ [0]) :=
  ⟨by decide, by decide, by decide,
   scoped_traversal_stays_in_scope scopedTree [0] [0, 0] false [1, 0]
     (by decide) (by decide) (by decide)⟩

/-! ## C7: Restrictive attribute filtering -/

theorem eq_of_mem_nodup_fst {l : List DAttr} {a b : DAttr}
    (hnd : (l.map Prod.fst).Nodup) (ha : a ∈ l) (hb : b ∈ l)
    (hfst : a.fst = b.fst) : a = b :=
  List.inj_on_of_nodup_map hnd ha hb hfst

/-- C7.  Under the Restrictive directive, attribute filtering of a kept
element retains an attribute only if it matches an attribute checker:
with the plugin policy, a retained attribute satisfies
`should_exclude_attr`; with the basic policy, a retained attribute is
matched by some attribute rule that is global or scoped to the element's
local name.  With no attribute checkers/rules at all, every attribute is
stripped unconditionally.  (Attribute names are unique on a real DOM
element; the `Nodup` hypothesis states that.) -/
theorem restrictive_attrs_retained_only_if_matched :
    ∀ (p : PluginPolicy) (q : BPolicy) (name ns : String) (attrs : List DAttr)
      (cs : List DNode) (a : DAttr),
      (p.attr_exclude_checkers.isEmpty = true →
        attrsOf (pluginRestrAttrs p (.elem name ns attrs cs)) = []) ∧
      ((attrs.map Prod.fst).Nodup →
        a ∈ attrsOf (pluginRestrAttrs p (.elem name ns attrs cs)) →
        p.should_exclude_attr (.elem name ns attrs cs) a = true) ∧
      (q.attr_rules.isEmpty = true →
        attrsOf (bRestrAttrs q (.elem name ns attrs cs)) = []) ∧
      ((attrs.map Prod.fst).Nodup →
        a ∈ attrsOf (bRestrAttrs q (.elem name ns attrs cs)) →
        ∃ r, r ∈ q.attr_rules ∧ (r.element = none ∨ r.element = some name) ∧
          ∃ m, m ∈ r.attributes ∧ m.key = a.fst ∧
            (∀ v, m.value = some v → v.is_match a.snd = true)) := by
  intro p q name ns attrs cs a
  refine ⟨?_, ?_, ?_, ?_⟩
  · intro hemp
    simp [pluginRestrAttrs, hemp, attrsOf]
  · intro hnd hmem
    cases hemp : p.attr_exclude_checkers.isEmpty with
    | true => simp [pluginRestrAttrs, hemp, attrsOf] at hmem
    | false =>
      simp only [pluginRestrAttrs, hemp, Bool.false_eq_true, if_false, attrsOf] at hmem
      rw [List.mem_filter] at hmem
      obtain ⟨hmema, hcont⟩ := hmem
      rw [List.contains_iff_exists_mem_beq] at hcont
      obtain ⟨k, hkmem, hkbeq⟩ := hcont
      rw [List.mem_map] at hkmem
      obtain ⟨b, hbmem, hbfst⟩ := hkmem
      rw [List.mem_filter] at hbmem
      obtain ⟨hbattr, hbchk⟩ := hbmem
      have hab : a = b := by
        apply eq_of_mem_nodup_fst hnd hmema hbattr
        rw [hbfst]
        exact eq_of_beq hkbeq
      rw [hab]
      exact hbchk
  · intro hemp
    simp [bRestrAttrs, bRestrAttrFilter, hemp, attrsOf]
  · intro hnd hmem
    cases hemp : q.attr_rules.isEmpty with
    | true => simp [bRestrAttrs, bRestrAttrFilter, hemp, attrsOf] at hmem
    | false =>
      simp only [bRestrAttrs, bRestrAttrFilter, hemp, Bool.false_eq_true, if_false,
        attrsOf] at hmem
      rw [List.mem_filter] at hmem
      obtain ⟨hmema, hcont⟩ := hmem
      rw [List.contains_iff_exists_mem_beq] at hcont
      obtain ⟨k, hkmem, hkbeq⟩ := hcont
      have hka : k = a.fst := (eq_of_beq hkbeq).symm
      subst hka
      unfold exclusiveAttrs at hkmem
      rw [List.mem_map] at hkmem
      obtain ⟨m, hmmem, hmkey⟩ := hkmem
      rw [List.mem_filter] at hmmem
      obtain ⟨happl, hhits⟩ := hmmem
      unfold applicableMatchers at happl
      rw [List.mem_flatMap] at happl
      obtain ⟨r, hrmem, hmr⟩ := happl
      have hscope : (r.element = none ∨ r.element = some name) ∧ m ∈ r.attributes := by
        cases hre : r.element with
        | none =>
          simp only [hre] at hmr
          exact ⟨Or.inl rfl, hmr⟩
        | some en =>
          simp only [hre] at hmr
          by_cases hen : name = en
          · rw [if_pos hen] at hmr
            exact ⟨Or.inr (by rw [hen]), hmr⟩
          · rw [if_neg hen] at hmr
            exact absurd hmr (by simp)
      refine ⟨r, hrmem, hscope.1, m, hscope.2, hmkey, ?_⟩
      intro v hv
      unfold matcherHits at hhits
      rw [hv] at hhits
      rw [List.any_eq_true] at hhits
      obtain ⟨b, hbmem, hbprop⟩ := hhits
      rw [Bool.and_eq_true] at hbprop
      obtain ⟨hbk, hbmatch⟩ := hbprop
      have hab : a = b := by
        apply eq_of_mem_nodup_fst hnd hmema hbmem
        rw [eq_of_beq hbk, hmkey]
      rw [hab]
      exact hbmatch

/-- A plugin attribute checker retaining `href` under Restrictive. -/
def hrefPluginPolicy : PluginPolicy := ⟨[], [], [fun _ a => a.fst == "href"]⟩

/-- A basic policy with one attribute rule scoped to `a` keeping
`href`. -/
def hrefBPolicy : BPolicy := ⟨[⟨some "a", [⟨"href", none⟩]⟩], ["a"]⟩

theorem restrictive_attrs_retained_only_if_matched_witness :
    ((([("href", "h"), ("role", "x")] : List DAttr).map Prod.fst).Nodup ∧
      ("href", "h") ∈ attrsOf
        (pluginRestrAttrs hrefPluginPolicy (.elem "a" "" [("href", "h"), ("role", "x")] [])) ∧
      hrefPluginPolicy.should_exclude_attr
        (.elem "a" "" [("href", "h"), ("role", "x")] []) ("href", "h") = true) ∧
    attrsOf (pluginRestrAttrs ⟨[], [], []⟩ (.elem "a" "" [("href", "h")] [])) = [] ∧
    attrsOf (bRestrAttrs ⟨[], []⟩ (.elem "a" "" [("href", "h")] [])) = [] ∧
    (∃ r, r ∈ hrefBPolicy.attr_rules ∧ (r.element = none ∨ r.element = some "a") ∧
      ∃ m, m ∈ r.attributes ∧ m.key = "href" ∧
        (∀ v, m.value = some v → v.is_match "h" = true)) :=
  ⟨⟨by decide, by decide,
    (restrictive_attrs_retained_only_if_matched hrefPluginPolicy hrefBPolicy
        "a" "" [("href", "h"), ("role", "x")] [] ("href", "h")).2.1
      (by decide) (by decide)⟩,
   (restrictive_attrs_retained_only_if_matched ⟨[], [], []⟩ ⟨[], []⟩
       "a" "" [("href", "h")] [] ("href", "h")).1 rfl,
   (restrictive_attrs_retained_only_if_matched ⟨[], [], []⟩ ⟨[], []⟩
       "a" "" [("href", "h")] [] ("href", "h")).2.2.1 rfl,
   (restrictive_attrs_retained_only_if_matched hrefPluginPolicy hrefBPolicy
       "a" "" [("href", "h")] [] ("href", "h")).2.2.2 (by decide) (by decide)⟩

/-! ## C3: idempotence

The attribute filters of the basic policy are idempotent, the directive
traversals produce "clean" trees on which they act as the identity, and
normalization is idempotent; chaining these gives idempotence of the
basic `Policy::sanitize_node` for both directives.  (The plugin policy
is not idempotent in general; see the counterexample.) -/

theorem mem_exclusiveAttrs_iff (p : BPolicy) (name : String) (attrs : List DAttr)
    (k : String) :
    k ∈ exclusiveAttrs p name attrs ↔
      ∃ m, m ∈ applicableMatchers p name ∧ matcherHits attrs m = true ∧ m.key = k := by
  unfold exclusiveAttrs
  rw [List.mem_map]
  constructor
  · rintro ⟨m, hm, hk⟩
    rcases List.mem_filter.mp hm with ⟨h1, h2⟩
    exact ⟨m, h1, h2, hk⟩
  · rintro ⟨m, h1, h2, hk⟩
    exact ⟨m, List.mem_filter.mpr ⟨h1, h2⟩, hk⟩

theorem contains_iff_mem {α : Type} [BEq α] [LawfulBEq α] {l : List α} {x : α} :
    l.contains x = true ↔ x ∈ l := List.elem_iff

theorem matcherHits_iff (attrs : List DAttr) (m : AttrMatcher) :
    matcherHits attrs m = true ↔ ∃ b, b ∈ attrs ∧ matcherWitness m b = true := by
  unfold matcherHits matcherWitness
  cases hv : m.value with
  | none => simp [hv, List.any_eq_true]
  | some v => simp [hv, List.any_eq_true]

theorem matcherWitness_key {m : AttrMatcher} {b : DAttr}
    (h : matcherWitness m b = true) : b.fst = m.key := by
  unfold matcherWitness at h
  rw [Bool.and_eq_true] at h
  exact eq_of_beq h.1

theorem matcherHits_mono {attrs attrs2 : List DAttr}
    (hsub : ∀ x, x ∈ attrs2 → x ∈ attrs) (m : AttrMatcher)
    (h : matcherHits attrs2 m = true) : matcherHits attrs m = true := by
  rcases (matcherHits_iff attrs2 m).mp h with ⟨b, hb, hw⟩
  exact (matcherHits_iff attrs m).mpr ⟨b, hsub b hb, hw⟩

theorem exclusiveAttrs_mono (p : BPolicy) (name : String)
    {attrs attrs2 : List DAttr} (hsub : ∀ x, x ∈ attrs2 → x ∈ attrs) {k : String}
    (hk : k ∈ exclusiveAttrs p name attrs2) : k ∈ exclusiveAttrs p name attrs := by
  rcases (mem_exclusiveAttrs_iff p name attrs2 k).mp hk with ⟨m, h1, h2, h3⟩
  exact (mem_exclusiveAttrs_iff p name attrs k).mpr ⟨m, h1, matcherHits_mono hsub m h2, h3⟩

theorem bPermAttrFilter_idem (p : BPolicy) (name : String) (attrs : List DAttr) :
    bPermAttrFilter p name (bPermAttrFilter p name attrs) = bPermAttrFilter p name attrs := by
  unfold bPermAttrFilter
  cases hemp : p.attr_rules.isEmpty with
  | true => simp
  | false =>
    simp only [Bool.false_eq_true, if_false]
    apply List.filter_eq_self.mpr
    intro a ha
    rcases List.mem_filter.mp ha with ⟨hattr, hpred⟩
    rw [Bool.not_eq_true'] at hpred
    have hnot : a.fst ∉ exclusiveAttrs p name attrs := by
      intro hmem2
      have hcontra : (exclusiveAttrs p name attrs).contains a.fst = true :=
        contains_iff_mem.mpr hmem2
      rw [hcontra] at hpred
      simp at hpred
    rw [Bool.not_eq_true']
    cases hc : (exclusiveAttrs p name
        (attrs.filter (fun a => !(exclusiveAttrs p name attrs).contains a.fst))).contains a.fst with
    | false => rfl
    | true =>
      have hmem2 := contains_iff_mem.mp hc
      have := exclusiveAttrs_mono p name
        (fun x hx => (List.mem_filter.mp hx).1) hmem2
      exact absurd this hnot

theorem exclusiveAttrs_stable_retain (p : BPolicy) (name : String)
    (attrs : List DAttr) {k : String} (hk : k ∈ exclusiveAttrs p name attrs) :
    k ∈ exclusiveAttrs p name
      (attrs.filter (fun a => (exclusiveAttrs p name attrs).contains a.fst)) := by
  rcases (mem_exclusiveAttrs_iff p name attrs k).mp hk with ⟨m, happl, hhit, hkey⟩
  rcases (matcherHits_iff attrs m).mp hhit with ⟨b, hb, hw⟩
  apply (mem_exclusiveAttrs_iff p name _ k).mpr
  refine ⟨m, happl, ?_, hkey⟩
  apply (matcherHits_iff _ m).mpr
  refine ⟨b, List.mem_filter.mpr ⟨hb, ?_⟩, hw⟩
  apply contains_iff_mem.mpr
  rw [matcherWitness_key hw, hkey]
  exact hk

theorem bRestrAttrFilter_idem (p : BPolicy) (name : String) (attrs : List DAttr) :
    bRestrAttrFilter p name (bRestrAttrFilter p name attrs) = bRestrAttrFilter p name attrs := by
  unfold bRestrAttrFilter
  cases hemp : p.attr_rules.isEmpty with
  | true => simp
  | false =>
    simp only [Bool.false_eq_true, if_false]
    apply List.filter_eq_self.mpr
    intro a ha
    rcases List.mem_filter.mp ha with ⟨hattr, hpred⟩
    have hmem2 : a.fst ∈ exclusiveAttrs p name attrs := contains_iff_mem.mp hpred
    exact contains_iff_mem.mpr (exclusiveAttrs_stable_retain p name attrs hmem2)

theorem contains_eq_false_of_isEmpty {l : List String} (h : l.isEmpty = true)
    (x : String) : l.contains x = false := by
  cases l with
  | nil => rfl
  | cons a t => simp at h

theorem bPermCleanN_elem_iff (p : BPolicy) (name ns : String) (attrs : List DAttr)
    (cs : List DNode) :
    bPermCleanN p (.elem name ns attrs cs) = true ↔
      name ∉ p.element_rules ∧ bPermAttrFilter p name attrs = attrs ∧
        bPermCleanL p cs = true := by
  simp [bPermCleanN, and_assoc]

theorem bPermCleanL_cons_iff (p : BPolicy) (c : DNode) (rest : List DNode) :
    bPermCleanL p (c :: rest) = true ↔
      bPermCleanN p c = true ∧ bPermCleanL p rest = true := by
  simp [bPermCleanL]

theorem bPermCleanL_append (p : BPolicy) (xs ys : List DNode) :
    bPermCleanL p (xs ++ ys) = (bPermCleanL p xs && bPermCleanL p ys) := by
  induction xs with
  | nil => rfl
  | cons c rest ih => simp [bPermCleanL, ih, Bool.and_assoc]

mutual

theorem bPermCleanN_of_empty (p : BPolicy)
    (hp : (p.element_rules.isEmpty && p.attr_rules.isEmpty) = true) :
    ∀ t, bPermCleanN p t = true
  | .elem name ns attrs cs => by
    have hp2 := hp
    rw [Bool.and_eq_true] at hp2
    apply (bPermCleanN_elem_iff p name ns attrs cs).mpr
    refine ⟨?_, ?_, bPermCleanL_of_empty p hp cs⟩
    · intro hmem
      have hcontra := contains_iff_mem.mpr hmem
      rw [contains_eq_false_of_isEmpty hp2.1 name] at hcontra
      simp at hcontra
    · unfold bPermAttrFilter
      rw [if_pos hp2.2]
  | .text s => rfl
  | .comment s => rfl

theorem bPermCleanL_of_empty (p : BPolicy)
    (hp : (p.element_rules.isEmpty && p.attr_rules.isEmpty) = true) :
    ∀ l, bPermCleanL p l = true
  | [] => rfl
  | c :: rest => by
    apply (bPermCleanL_cons_iff p c rest).mpr
    exact ⟨bPermCleanN_of_empty p hp c, bPermCleanL_of_empty p hp rest⟩

end

mutual

theorem bPermChild_clean (p : BPolicy) : ∀ c, bPermCleanL p (bPermChild p c) = true
  | .elem name ns attrs cs => by
    simp only [bPermChild]
    cases hcon : p.element_rules.contains name with
    | true =>
      rw [if_pos rfl]
      exact bPermLoop_clean p cs
    | false =>
      rw [if_neg (by simp)]
      apply (bPermCleanL_cons_iff p _ _).mpr
      refine ⟨?_, rfl⟩
      simp only [bPermAttrs]
      apply (bPermCleanN_elem_iff p name ns _ _).mpr
      refine ⟨?_, bPermAttrFilter_idem p name attrs, bPermLoop_clean p cs⟩
      intro hmem
      rw [contains_iff_mem.mpr hmem] at hcon
      simp at hcon
  | .text s => rfl
  | .comment s => rfl

theorem bPermLoop_clean (p : BPolicy) : ∀ cs, bPermCleanL p (bPermLoop p cs) = true
  | [] => rfl
  | c :: rest => by
    rw [bPermLoop, bPermCleanL_append, bPermChild_clean p c, bPermLoop_clean p rest]
    rfl

end

mutual

theorem bPermChild_id (p : BPolicy) :
    ∀ c, bPermCleanN p c = true → bPermChild p c = [c]
  | .elem name ns attrs cs, h => by
    obtain ⟨h1, h2, h3⟩ := (bPermCleanN_elem_iff p name ns attrs cs).mp h
    simp only [bPermChild]
    rw [if_neg (fun hc => h1 (contains_iff_mem.mp hc))]
    rw [bPermLoop_id p cs h3]
    simp only [bPermAttrs]
    rw [h2]
  | .text s, _ => rfl
  | .comment s, _ => rfl

theorem bPermLoop_id (p : BPolicy) :
    ∀ l, bPermCleanL p l = true → bPermLoop p l = l
  | [], _ => rfl
  | c :: rest, h => by
    obtain ⟨h1, h2⟩ := (bPermCleanL_cons_iff p c rest).mp h
    rw [bPermLoop, bPermChild_id p c h1, bPermLoop_id p rest h2]
    rfl

end

theorem mergeTexts_bPermClean (p : BPolicy) :
    ∀ l, bPermCleanL p l = true → bPermCleanL p (mergeTexts l) = true
  | [], _ => rfl
  | .text s :: rest, h => by
    obtain ⟨h1, h2⟩ := (bPermCleanL_cons_iff p _ rest).mp h
    have hrest := mergeTexts_bPermClean p rest h2
    simp only [mergeTexts]
    cases hm : mergeTexts rest with
    | nil => exact (bPermCleanL_cons_iff p _ _).mpr ⟨rfl, rfl⟩
    | cons d m2 =>
      rw [hm] at hrest
      obtain ⟨hd, hm2⟩ := (bPermCleanL_cons_iff p d m2).mp hrest
      cases d with
      | text t => exact (bPermCleanL_cons_iff p _ _).mpr ⟨rfl, hm2⟩
      | elem nm ns2 at2 cs2 => exact (bPermCleanL_cons_iff p _ _).mpr ⟨rfl, hrest⟩
      | comment s2 => exact (bPermCleanL_cons_iff p _ _).mpr ⟨rfl, hrest⟩
  | .elem nm ns2 at2 cs2 :: rest, h => by
    obtain ⟨h1, h2⟩ := (bPermCleanL_cons_iff p _ rest).mp h
    simp only [mergeTexts]
    exact (bPermCleanL_cons_iff p _ _).mpr ⟨h1, mergeTexts_bPermClean p rest h2⟩
  | .comment s2 :: rest, h => by
    obtain ⟨h1, h2⟩ := (bPermCleanL_cons_iff p _ rest).mp h
    simp only [mergeTexts]
    exact (bPermCleanL_cons_iff p _ _).mpr ⟨rfl, mergeTexts_bPermClean p rest h2⟩

mutual

theorem normalizeNode_bPermClean (p : BPolicy) :
    ∀ t, bPermCleanN p t = true → bPermCleanN p (normalizeNode t) = true
  | .elem name ns attrs cs, h => by
    obtain ⟨h1, h2, h3⟩ := (bPermCleanN_elem_iff p name ns attrs cs).mp h
    simp only [normalizeNode]
    apply (bPermCleanN_elem_iff p name ns attrs _).mpr
    exact ⟨h1, h2, mergeTexts_bPermClean p _ (normalizeKids_bPermClean p cs h3)⟩
  | .text s, h => h
  | .comment s, h => h

theorem normalizeKids_bPermClean (p : BPolicy) :
    ∀ l, bPermCleanL p l = true → bPermCleanL p (normalizeKids l) = true
  | [], h => h
  | c :: rest, h => by
    obtain ⟨h1, h2⟩ := (bPermCleanL_cons_iff p c rest).mp h
    simp only [normalizeKids]
    apply (bPermCleanL_cons_iff p _ _).mpr
    exact ⟨normalizeNode_bPermClean p c h1, normalizeKids_bPermClean p rest h2⟩

end

theorem bPermList_clean (p : BPolicy) (cs : List DNode) :
    bPermCleanL p (bPermList p cs) = true := by
  unfold bPermList
  cases hp : (p.element_rules.isEmpty && p.attr_rules.isEmpty) with
  | true =>
    rw [if_pos rfl]
    exact bPermCleanL_of_empty p hp cs
  | false =>
    rw [if_neg (by simp)]
    exact bPermLoop_clean p cs

theorem bPermList_id (p : BPolicy) (cs : List DNode)
    (h : bPermCleanL p cs = true) : bPermList p cs = cs := by
  unfold bPermList
  cases hp : (p.element_rules.isEmpty && p.attr_rules.isEmpty) with
  | true => rw [if_pos rfl]
  | false =>
    rw [if_neg (by simp)]
    exact bPermLoop_id p cs h

theorem bRestrCleanN_elem_iff (p : BPolicy) (name ns : String) (attrs : List DAttr)
    (cs : List DNode) :
    bRestrCleanN p (.elem name ns attrs cs) = true ↔
      (name ∈ ALWAYS_SKIP ∨ name ∈ p.element_rules) ∧
        bRestrAttrFilter p name attrs = attrs ∧ bRestrCleanL p cs = true := by
  simp [bRestrCleanN, and_assoc]

theorem bRestrCleanL_cons_iff (p : BPolicy) (c : DNode) (rest : List DNode) :
    bRestrCleanL p (c :: rest) = true ↔
      bRestrCleanN p c = true ∧ bRestrCleanL p rest = true := by
  simp [bRestrCleanL]

theorem bRestrCleanL_append (p : BPolicy) (xs ys : List DNode) :
    bRestrCleanL p (xs ++ ys) = (bRestrCleanL p xs && bRestrCleanL p ys) := by
  induction xs with
  | nil => rfl
  | cons c rest ih => simp [bRestrCleanL, ih, Bool.and_assoc]

mutual

theorem bRestrChild_clean (p : BPolicy) : ∀ c, bRestrCleanL p (bRestrChild p c) = true
  | .elem name ns attrs cs => by
    simp only [bRestrChild]
    cases hcon : (ALWAYS_SKIP.contains name || p.element_rules.contains name) with
    | false =>
      rw [if_neg (by simp)]
      exact bRestrListTrav_clean p cs
    | true =>
      rw [if_pos rfl]
      apply (bRestrCleanL_cons_iff p _ _).mpr
      refine ⟨?_, rfl⟩
      simp only [bRestrAttrs]
      apply (bRestrCleanN_elem_iff p name ns _ _).mpr
      refine ⟨?_, bRestrAttrFilter_idem p name attrs, bRestrListTrav_clean p cs⟩
      rw [Bool.or_eq_true] at hcon
      rcases hcon with hc | hc
      · exact Or.inl (contains_iff_mem.mp hc)
      · exact Or.inr (contains_iff_mem.mp hc)
  | .text s => rfl
  | .comment s => rfl

theorem bRestrListTrav_clean (p : BPolicy) :
    ∀ cs, bRestrCleanL p (bRestrList p cs) = true
  | [] => rfl
  | c :: rest => by
    rw [bRestrList, bRestrCleanL_append, bRestrChild_clean p c,
      bRestrListTrav_clean p rest]
    rfl

end

mutual

theorem bRestrChild_id (p : BPolicy) :
    ∀ c, bRestrCleanN p c = true → bRestrChild p c = [c]
  | .elem name ns attrs cs, h => by
    obtain ⟨h1, h2, h3⟩ := (bRestrCleanN_elem_iff p name ns attrs cs).mp h
    simp only [bRestrChild]
    have hcond : (ALWAYS_SKIP.contains name || p.element_rules.contains name) = true := by
      rcases h1 with hc | hc
      · rw [contains_iff_mem.mpr hc]
        rfl
      · rw [contains_iff_mem.mpr hc]
        simp
    rw [if_pos hcond]
    rw [bRestrList_id p cs h3]
    simp only [bRestrAttrs]
    rw [h2]
  | .text s, _ => rfl
  | .comment s, _ => rfl

theorem bRestrList_id (p : BPolicy) :
    ∀ l, bRestrCleanL p l = true → bRestrList p l = l
  | [], _ => rfl
  | c :: rest, h => by
    obtain ⟨h1, h2⟩ := (bRestrCleanL_cons_iff p c rest).mp h
    rw [bRestrList, bRestrChild_id p c h1, bRestrList_id p rest h2]
    rfl

end

theorem mergeTexts_bRestrClean (p : BPolicy) :
    ∀ l, bRestrCleanL p l = true → bRestrCleanL p (mergeTexts l) = true
  | [], _ => rfl
  | .text s :: rest, h => by
    obtain ⟨h1, h2⟩ := (bRestrCleanL_cons_iff p _ rest).mp h
    have hrest := mergeTexts_bRestrClean p rest h2
    simp only [mergeTexts]
    cases hm : mergeTexts rest with
    | nil => exact (bRestrCleanL_cons_iff p _ _).mpr ⟨rfl, rfl⟩
    | cons d m2 =>
      rw [hm] at hrest
      obtain ⟨hd, hm2⟩ := (bRestrCleanL_cons_iff p d m2).mp hrest
      cases d with
      | text t => exact (bRestrCleanL_cons_iff p _ _).mpr ⟨rfl, hm2⟩
      | elem nm ns2 at2 cs2 => exact (bRestrCleanL_cons_iff p _ _).mpr ⟨rfl, hrest⟩
      | comment s2 => exact (bRestrCleanL_cons_iff p _ _).mpr ⟨rfl, hrest⟩
  | .elem nm ns2 at2 cs2 :: rest, h => by
    obtain ⟨h1, h2⟩ := (bRestrCleanL_cons_iff p _ rest).mp h
    simp only [mergeTexts]
    exact (bRestrCleanL_cons_iff p _ _).mpr ⟨h1, mergeTexts_bRestrClean p rest h2⟩
  | .comment s2 :: rest, h => by
    obtain ⟨h1, h2⟩ := (bRestrCleanL_cons_iff p _ rest).mp h
    simp only [mergeTexts]
    exact (bRestrCleanL_cons_iff p _ _).mpr ⟨rfl, mergeTexts_bRestrClean p rest h2⟩

mutual

theorem normalizeNode_bRestrClean (p : BPolicy) :
    ∀ t, bRestrCleanN p t = true → bRestrCleanN p (normalizeNode t) = true
  | .elem name ns attrs cs, h => by
    obtain ⟨h1, h2, h3⟩ := (bRestrCleanN_elem_iff p name ns attrs cs).mp h
    simp only [normalizeNode]
    apply (bRestrCleanN_elem_iff p name ns attrs _).mpr
    exact ⟨h1, h2, mergeTexts_bRestrClean p _ (normalizeKids_bRestrClean p cs h3)⟩
  | .text s, h => h
  | .comment s, h => h

theorem normalizeKids_bRestrClean (p : BPolicy) :
    ∀ l, bRestrCleanL p l = true → bRestrCleanL p (normalizeKids l) = true
  | [], h => h
  | c :: rest, h => by
    obtain ⟨h1, h2⟩ := (bRestrCleanL_cons_iff p c rest).mp h
    simp only [normalizeKids]
    apply (bRestrCleanL_cons_iff p _ _).mpr
    exact ⟨normalizeNode_bRestrClean p c h1, normalizeKids_bRestrClean p rest h2⟩

end

theorem noAdjTexts_cons_of (c : DNode) (l : List DNode)
    (hl : noAdjTexts l = true) (hh : (isTextN c && headIsText l) = false) :
    noAdjTexts (c :: l) = true := by
  cases l with
  | nil => rfl
  | cons d m =>
    simp only [noAdjTexts, Bool.and_eq_true]
    constructor
    · have : headIsText (d :: m) = isTextN d := by cases d <;> rfl
      rw [this] at hh
      rw [hh]
      rfl
    · exact hl

theorem noAdjTexts_cons_elim (c : DNode) (l : List DNode)
    (h : noAdjTexts (c :: l) = true) :
    noAdjTexts l = true ∧ (isTextN c && headIsText l) = false := by
  cases l with
  | nil => exact ⟨rfl, by cases c <;> rfl⟩
  | cons d m =>
    simp only [noAdjTexts, Bool.and_eq_true] at h
    refine ⟨h.2, ?_⟩
    have hht : headIsText (d :: m) = isTextN d := by cases d <;> rfl
    rw [hht]
    rw [Bool.not_eq_true'] at h
    exact h.1

theorem mergeTexts_noAdj : ∀ l, noAdjTexts (mergeTexts l) = true
  | [] => rfl
  | .text s :: rest => by
    have ih := mergeTexts_noAdj rest
    simp only [mergeTexts]
    cases hm : mergeTexts rest with
    | nil => rfl
    | cons d m2 =>
      rw [hm] at ih
      obtain ⟨hm2, hh⟩ := noAdjTexts_cons_elim d m2 ih
      cases d with
      | text t =>
        apply noAdjTexts_cons_of _ _ hm2
        simp only [isTextN] at hh ⊢
        simpa using hh
      | elem nm ns2 at2 cs2 =>
        apply noAdjTexts_cons_of _ _ ih
        rfl
      | comment s2 =>
        apply noAdjTexts_cons_of _ _ ih
        rfl
  | .elem nm ns2 at2 cs2 :: rest => by
    simp only [mergeTexts]
    exact noAdjTexts_cons_of _ _ (mergeTexts_noAdj rest) rfl
  | .comment s2 :: rest => by
    simp only [mergeTexts]
    exact noAdjTexts_cons_of _ _ (mergeTexts_noAdj rest) rfl

theorem mergeTexts_id_of_noAdj : ∀ l, noAdjTexts l = true → mergeTexts l = l
  | [], _ => rfl
  | .text s :: rest, h => by
    obtain ⟨hrest, hh⟩ := noAdjTexts_cons_elim _ rest h
    simp only [mergeTexts]
    rw [mergeTexts_id_of_noAdj rest hrest]
    simp only [isTextN, Bool.true_and] at hh
    cases rest with
    | nil => rfl
    | cons d m =>
      cases d with
      | text t => simp [headIsText] at hh
      | elem nm ns2 at2 cs2 => rfl
      | comment s2 => rfl
  | .elem nm ns2 at2 cs2 :: rest, h => by
    obtain ⟨hrest, _⟩ := noAdjTexts_cons_elim _ rest h
    simp only [mergeTexts]
    rw [mergeTexts_id_of_noAdj rest hrest]
  | .comment s2 :: rest, h => by
    obtain ⟨hrest, _⟩ := noAdjTexts_cons_elim _ rest h
    simp only [mergeTexts]
    rw [mergeTexts_id_of_noAdj rest hrest]

theorem normalizeKids_mergeTexts_comm :
    ∀ l, normalizeKids (mergeTexts l) = mergeTexts (normalizeKids l)
  | [] => rfl
  | .text s :: rest => by
    have ih := normalizeKids_mergeTexts_comm rest
    simp only [mergeTexts, normalizeKids, normalizeNode]
    cases hm : mergeTexts rest with
    | nil =>
      rw [hm] at ih
      rw [← ih]
      rfl
    | cons d m2 =>
      rw [hm] at ih
      rw [← ih]
      cases d with
      | text t => simp only [normalizeKids, normalizeNode]
      | elem nm ns2 at2 cs2 => simp only [normalizeKids, normalizeNode]
      | comment s2 => simp only [normalizeKids, normalizeNode]
  | .elem nm ns2 at2 cs2 :: rest => by
    have ih := normalizeKids_mergeTexts_comm rest
    simp only [mergeTexts, normalizeKids, normalizeNode]
    rw [ih]
  | .comment s2 :: rest => by
    have ih := normalizeKids_mergeTexts_comm rest
    simp only [mergeTexts, normalizeKids, normalizeNode]
    rw [ih]

mutual

theorem normalizeNode_idem : ∀ t, normalizeNode (normalizeNode t) = normalizeNode t
  | .elem name ns attrs cs => by
    simp only [normalizeNode]
    rw [normalizeKids_mergeTexts_comm, normalizeKids_idem cs,
      mergeTexts_id_of_noAdj _ (mergeTexts_noAdj (normalizeKids cs))]
  | .text s => rfl
  | .comment s => rfl

theorem normalizeKids_idem : ∀ l, normalizeKids (normalizeKids l) = normalizeKids l
  | [] => rfl
  | c :: rest => by
    simp only [normalizeKids]
    rw [normalizeNode_idem c, normalizeKids_idem rest]

end

/-- Normalization of a child list is idempotent. -/
theorem listNormal_idem (l : List DNode) :
    mergeTexts (normalizeKids (mergeTexts (normalizeKids l))) =
      mergeTexts (normalizeKids l) := by
  rw [normalizeKids_mergeTexts_comm, normalizeKids_idem,
    mergeTexts_id_of_noAdj _ (mergeTexts_noAdj (normalizeKids l))]

/-- C3, counterexample.  `PluginPolicy` sanitization is not idempotent:
with `attrProbePolicy` the first pass keeps the `div` (it still has its
`x` attribute when the exclude checker runs) and then strips `x`; the
second pass sees a `div` without `x`, so the exclude checker now matches
and unwraps it. -/
theorem plugin_sanitize_not_idempotent :
    pluginPermSanitize attrProbePolicy (pluginPermSanitize attrProbePolicy attrProbeTree) ≠
      pluginPermSanitize attrProbePolicy attrProbeTree :=
  fun h => absurd (congrArg (countElems "div") h) (by decide)

/-- C3, amended.  The basic name-based `Policy::sanitize_node` is
idempotent for both directives: the first pass leaves a tree in which
every element's keep decision and attribute filter are fixed points, and
normalization is idempotent, so a second pass changes nothing.
(`PluginPolicy` with arbitrary checkers is not idempotent; see the
counterexample.) -/
theorem basic_policy_sanitize_idempotent :
    ∀ (p : BPolicy) (t : DNode),
      bPermSanitize p (bPermSanitize p t) = bPermSanitize p t ∧
      bRestrSanitize p (bRestrSanitize p t) = bRestrSanitize p t := by
  intro p t
  constructor
  · cases t with
    | elem name ns attrs cs =>
      simp only [bPermSanitize, normalizeNode]
      rw [bPermList_id p _ (mergeTexts_bPermClean p _
        (normalizeKids_bPermClean p _ (bPermList_clean p cs)))]
      rw [listNormal_idem]
    | text s => rfl
    | comment s => rfl
  · cases t with
    | elem name ns attrs cs =>
      simp only [bRestrSanitize, normalizeNode]
      rw [bRestrList_id p _ (mergeTexts_bRestrClean p _
        (normalizeKids_bRestrClean p _ (bRestrListTrav_clean p cs)))]
      rw [listNormal_idem]
    | text s => rfl
    | comment s => rfl

end DomSanitizer
